import Mathlib

/-!
Shallow embedding of the WebRTC mesh-call orchestrator in
`src/hooks/useWebRTC.ts` (together with the `handleLeave` glue in
`src/components/WebRTCRoom.tsx`).

The hook keeps, per room session:
  * `pcRef`            : a `Map<PeerId, RTCPeerConnection>` (the registry),
  * `localStreamRef`   : the camera/microphone capture stream,
  * `remoteStreams`    : peer id → remote media stream,
  * `connectedPeers`   : the membership list,
  * `screenShareStream`, `isScreenSharing`.

`RTCPeerConnection` is a browser object; we embed the part of its W3C
behaviour the handlers rely on: the signaling-state machine
(`stable` / `have-local-offer` / `have-remote-offer`), `addTrack`
(rejecting a duplicate sender for the same track), `createOffer`,
`createAnswer` (requires a remote offer), `setLocalDescription`,
`setRemoteDescription` (an `answer` is only accepted in
`have-local-offer`; an `offer` only in `stable`/`have-remote-offer`),
`addIceCandidate` (rejects while no remote description is set),
`getSenders` and `RTCRtpSender.replaceTrack`.

Every event handler is a pure function `HookState → HookState × List Op`,
where `Op` records the observable operations (connection creation, track
attachment, description setting, outbound signaling messages, logged
errors/warnings) in the order the JavaScript performs them; `try`/`catch`
blocks become `Except` matches that keep the partially-updated state and
log the error. Ghost fields `closedPcs` and `stoppedTracks` record which
connections were closed and which media tracks were stopped.
-/

namespace WebRTC

abbrev PeerId := String

inductive TrackKind where
  | audio
  | video
deriving DecidableEq, Repr

/-- A `MediaStreamTrack`: tracks are shared by reference, so identity is
the track id. -/
structure Track where
  tid : Nat
  kind : TrackKind
deriving DecidableEq, Repr

/-- An `RTCRtpSender`: an outgoing track binding on a connection. -/
structure Sender where
  track : Option Track
deriving DecidableEq, Repr

/-- W3C `RTCSignalingState` (the states these handlers can reach). -/
inductive SigState where
  | stable
  | haveLocalOffer
  | haveRemoteOffer
deriving DecidableEq, Repr

inductive SdpType where
  | offer
  | answer
deriving DecidableEq, Repr

structure SessionDescription where
  sdpType : SdpType
  sdp : Nat
deriving DecidableEq, Repr

/-- The embedded `RTCPeerConnection`.  `pcId` is a creation counter used
to tell distinct connection objects apart; `appliedCandidates` records
the remote ICE candidates successfully applied, in order. -/
structure PC where
  pcId : Nat
  senders : List Sender
  signalingState : SigState
  remoteDesc : Option SessionDescription
  localDesc : Option SessionDescription
  appliedCandidates : List Nat
deriving DecidableEq, Repr

/-- `pc.addTrack(track, stream)`: throws `InvalidAccessError` if a sender
already exists for this track, otherwise appends a new sender. -/
def PC.addTrack (pc : PC) (t : Track) : Except String PC :=
  if pc.senders.any (fun s => s.track = some t) then
    .error "InvalidAccessError: a sender already exists for the track"
  else
    .ok { pc with senders := pc.senders ++ [{ track := some t }] }

/-- `pc.createOffer()`; the SDP payload is abstracted to a number. -/
def PC.createOffer (pc : PC) : SessionDescription :=
  { sdpType := .offer, sdp := pc.pcId }

/-- `pc.createAnswer()`: only valid with a remote offer in place. -/
def PC.createAnswer (pc : PC) : Except String SessionDescription :=
  if pc.signalingState = .haveRemoteOffer then
    .ok { sdpType := .answer, sdp := pc.pcId }
  else
    .error "InvalidStateError: createAnswer without a remote offer"

/-- `pc.setLocalDescription(d)` per the W3C state table. -/
def PC.setLocalDescription (pc : PC) (d : SessionDescription) :
    Except String PC :=
  match d.sdpType with
  | .offer =>
      if pc.signalingState = .stable ∨ pc.signalingState = .haveLocalOffer then
        .ok { pc with localDesc := some d, signalingState := .haveLocalOffer }
      else
        .error "InvalidStateError: setLocalDescription(offer)"
  | .answer =>
      if pc.signalingState = .haveRemoteOffer then
        .ok { pc with localDesc := some d, signalingState := .stable }
      else
        .error "InvalidStateError: setLocalDescription(answer)"

/-- `pc.setRemoteDescription(d)` per the W3C state table: an `offer` is
accepted in `stable` or `have-remote-offer`, an `answer` only in
`have-local-offer` (it completes the exchange back to `stable`). -/
def PC.setRemoteDescription (pc : PC) (d : SessionDescription) :
    Except String PC :=
  match d.sdpType with
  | .offer =>
      if pc.signalingState = .stable ∨ pc.signalingState = .haveRemoteOffer then
        .ok { pc with remoteDesc := some d, signalingState := .haveRemoteOffer }
      else
        .error "InvalidStateError: setRemoteDescription(offer)"
  | .answer =>
      if pc.signalingState = .haveLocalOffer then
        .ok { pc with remoteDesc := some d, signalingState := .stable }
      else
        .error "InvalidStateError: setRemoteDescription(answer)"

/-- `pc.addIceCandidate(c)`: rejects with `InvalidStateError` while no
remote description is set. -/
def PC.addIceCandidate (pc : PC) (c : Nat) : Except String PC :=
  if pc.remoteDesc.isSome then
    .ok { pc with appliedCandidates := pc.appliedCandidates ++ [c] }
  else
    .error "InvalidStateError: addIceCandidate before remote description"

/-- `pc.getSenders().find(s => s.track && s.track.kind === "video")` and
`sender.replaceTrack(t)`: replace the track of the first sender that
currently carries a video track; if none exists, nothing happens. -/
def replaceFirstVideo : List Sender → Track → List Sender
  | [], _ => []
  | s :: rest, t =>
      match s.track with
      | some tr =>
          if tr.kind = .video then { track := some t } :: rest
          else s :: replaceFirstVideo rest t
      | none => s :: replaceFirstVideo rest t

def PC.replaceVideoTrack (pc : PC) (t : Track) : PC :=
  { pc with senders := replaceFirstVideo pc.senders t }

/-! ### Association-list model of `Map<PeerId, _>` and `Record<PeerId, _>` -/

def alistLookup {β : Type} : List (PeerId × β) → PeerId → Option β
  | [], _ => none
  | (q, b) :: rest, p => if q = p then some b else alistLookup rest p

def alistSet {β : Type} : List (PeerId × β) → PeerId → β → List (PeerId × β)
  | [], p, b => [(p, b)]
  | (q, x) :: rest, p, b =>
      if q = p then (p, b) :: rest else (q, x) :: alistSet rest p b

def alistErase {β : Type} : List (PeerId × β) → PeerId → List (PeerId × β)
  | [], _ => []
  | (q, x) :: rest, p =>
      if q = p then rest else (q, x) :: alistErase rest p

def alistKeys {β : Type} (m : List (PeerId × β)) : List PeerId :=
  m.map Prod.fst

/-! ### Hook state and observable operations -/

structure HookState where
  pcs : List (PeerId × PC)
  localStream : Option (List Track)
  remoteStreams : List (PeerId × Nat)
  connectedPeers : List PeerId
  screenShareStream : Option (List Track)
  isScreenSharing : Bool
  nextPcId : Nat
  closedPcs : List Nat
  stoppedTracks : List Nat
deriving DecidableEq, Repr

def initState : HookState :=
  { pcs := [], localStream := none, remoteStreams := [], connectedPeers := [],
    screenShareStream := none, isScreenSharing := false, nextPcId := 0,
    closedPcs := [], stoppedTracks := [] }

/-- Observable operations, in program order. -/
inductive Op where
  | createPc (p : PeerId)
  | addTrackOk (p : PeerId) (tid : Nat)
  | addTrackErr (p : PeerId) (tid : Nat)
  | setRemoteDescOk (p : PeerId)
  | createAnswerOk (p : PeerId)
  | sendOffer (target : PeerId) (sdp : Nat)
  | sendAnswer (target : PeerId) (sdp : Nat)
  | sendLeave
  | sendStartShare
  | sendStopShare
  | addCandidateOk (p : PeerId) (c : Nat)
  | errorLogged (msg : String)
  | warnLogged (msg : String)
deriving DecidableEq, Repr

/-! ### The handlers of `useWebRTC.ts`, one definition each -/

/-- The state of a newly constructed `RTCPeerConnection`. -/
def freshPc (n : Nat) : PC :=
  { pcId := n, senders := [], signalingState := .stable,
    remoteDesc := none, localDesc := none, appliedCandidates := [] }

/-- `createPeerConnection` (useWebRTC.ts:81-143): builds a fresh
`RTCPeerConnection` and stores it in `pcRef` under the key of the peer
(`Map.set`: an existing entry is overwritten, not closed). -/
def createPeerConnection (s : HookState) (p : PeerId) : HookState × PC :=
  let pc : PC := freshPc s.nextPcId
  ({ s with pcs := alistSet s.pcs p pc, nextPcId := s.nextPcId + 1 }, pc)

/-- The `localStreamRef.current.getTracks().forEach(track => { try {
pc.addTrack(track, ...) } catch ... })` loop shared by `startCallWith`
and `onOffer`: each failure is caught per track and only logged. -/
def addLocalTracks (p : PeerId) (pc : PC) : List Track → PC × List Op
  | [] => (pc, [])
  | t :: ts =>
      match pc.addTrack t with
      | .ok pc' =>
          let r := addLocalTracks p pc' ts
          (r.1, Op.addTrackOk p t.tid :: r.2)
      | .error _ =>
          let r := addLocalTracks p pc ts
          (r.1, Op.addTrackErr p t.tid :: r.2)

/-- `startCallWith` (useWebRTC.ts:172-216): create a connection, attach
all local tracks (if local media exists), then `createOffer`,
`setLocalDescription` and emit the `offer` addressed to the peer; the
offer block is wrapped in `try`/`catch`. -/
def startCallWith (s : HookState) (p : PeerId) : HookState × List Op :=
  let r := createPeerConnection s p
  let s₁ := r.1
  let tr :=
    match s₁.localStream with
    | some tracks => addLocalTracks p r.2 tracks
    | none => (r.2, [])
  let offer := PC.createOffer tr.1
  match tr.1.setLocalDescription offer with
  | .ok pc₂ =>
      ({ s₁ with pcs := alistSet s₁.pcs p pc₂ },
       Op.createPc p :: tr.2 ++ [Op.sendOffer p offer.sdp])
  | .error e =>
      ({ s₁ with pcs := alistSet s₁.pcs p tr.1 },
       Op.createPc p :: tr.2 ++ [Op.errorLogged e])

/-- `onUserJoined` (useWebRTC.ts:247-263): membership add guarded by
`prev.includes`, then — whenever local media exists — `startCallWith`,
unconditionally on whether a session already exists. -/
def onUserJoined (s : HookState) (p : PeerId) : HookState × List Op :=
  let s₁ :=
    if p ∈ s.connectedPeers then s
    else { s with connectedPeers := s.connectedPeers ++ [p] }
  match s₁.localStream with
  | some _ => startCallWith s₁ p
  | none => (s₁, [])

/-- `onExistingUsers` (useWebRTC.ts:226-246): iterate the roster,
skipping the local participant, doing the same guarded add plus
auto-call as `onUserJoined`. -/
def onExistingUsers (selfId : PeerId) (s : HookState) :
    List PeerId → HookState × List Op
  | [] => (s, [])
  | u :: us =>
      if u = selfId then onExistingUsers selfId s us
      else
        let s₁ :=
          if u ∈ s.connectedPeers then s
          else { s with connectedPeers := s.connectedPeers ++ [u] }
        match s₁.localStream with
        | some _ =>
            let r := startCallWith s₁ u
            let rest := onExistingUsers selfId r.1 us
            (rest.1, r.2 ++ rest.2)
        | none => onExistingUsers selfId s₁ us

/-- `onUserLeft` (useWebRTC.ts:264-275): filter the peer out of the
membership list, close and delete its connection, drop its remote
stream. -/
def onUserLeft (s : HookState) (p : PeerId) : HookState × List Op :=
  let closed :=
    match alistLookup s.pcs p with
    | some pc => s.closedPcs ++ [pc.pcId]
    | none => s.closedPcs
  ({ s with
      connectedPeers := s.connectedPeers.filter (fun q => q ≠ p),
      pcs := alistErase s.pcs p,
      remoteStreams := alistErase s.remoteStreams p,
      closedPcs := closed }, [])

/-- `onOffer` (useWebRTC.ts:276-339): if no connection exists for the
sender, create one and attach the local tracks (per-track
`try`/`catch`); then, in one `try`/`catch`, set the remote description,
create the answer, set it as local description and emit it. -/
def onOffer (s : HookState) (fromUserId : PeerId) (offer : SessionDescription) :
    HookState × List Op :=
  let pre :=
    match alistLookup s.pcs fromUserId with
    | some pc => (s, pc, ([] : List Op))
    | none =>
        let r := createPeerConnection s fromUserId
        let tr :=
          match r.1.localStream with
          | some tracks => addLocalTracks fromUserId r.2 tracks
          | none => (r.2, [])
        ({ r.1 with pcs := alistSet r.1.pcs fromUserId tr.1 }, tr.1,
         Op.createPc fromUserId :: tr.2)
  let s₁ := pre.1
  let pc := pre.2.1
  let ops₁ := pre.2.2
  match pc.setRemoteDescription offer with
  | .error e =>
      ({ s₁ with pcs := alistSet s₁.pcs fromUserId pc },
       ops₁ ++ [Op.errorLogged e])
  | .ok pc₂ =>
      match pc₂.createAnswer with
      | .error e =>
          ({ s₁ with pcs := alistSet s₁.pcs fromUserId pc₂ },
           ops₁ ++ [Op.setRemoteDescOk fromUserId, Op.errorLogged e])
      | .ok ans =>
          match pc₂.setLocalDescription ans with
          | .error e =>
              ({ s₁ with pcs := alistSet s₁.pcs fromUserId pc₂ },
               ops₁ ++ [Op.setRemoteDescOk fromUserId,
                        Op.createAnswerOk fromUserId, Op.errorLogged e])
          | .ok pc₃ =>
              ({ s₁ with pcs := alistSet s₁.pcs fromUserId pc₃ },
               ops₁ ++ [Op.setRemoteDescOk fromUserId,
                        Op.createAnswerOk fromUserId,
                        Op.sendAnswer fromUserId ans.sdp])

/-- `onAnswer` (useWebRTC.ts:340-361): look the connection up; if absent,
warn; otherwise `setRemoteDescription(answer)` inside `try`/`catch`. -/
def onAnswer (s : HookState) (fromUserId : PeerId) (ans : SessionDescription) :
    HookState × List Op :=
  match alistLookup s.pcs fromUserId with
  | none => (s, [Op.warnLogged "no peer connection found"])
  | some pc =>
      match pc.setRemoteDescription ans with
      | .ok pc' =>
          ({ s with pcs := alistSet s.pcs fromUserId pc' },
           [Op.setRemoteDescOk fromUserId])
      | .error e => (s, [Op.errorLogged e])

/-- `onCandidate` (useWebRTC.ts:362-383): look the connection up; if
absent, warn and drop; otherwise `addIceCandidate` inside `try`/`catch`
(no queue of any kind exists in the hook). -/
def onCandidate (s : HookState) (fromUserId : PeerId) (c : Nat) :
    HookState × List Op :=
  match alistLookup s.pcs fromUserId with
  | none => (s, [Op.warnLogged "no peer connection found for candidate"])
  | some pc =>
      match pc.addIceCandidate c with
      | .ok pc' =>
          ({ s with pcs := alistSet s.pcs fromUserId pc' },
           [Op.addCandidateOk fromUserId c])
      | .error e => (s, [Op.errorLogged e])

/-- `leaveRoom` (useWebRTC.ts:151-159): emit `leave-room`, close every
connection, clear the registry, the remote streams and the membership
list.  Local media and the screen-share stream are untouched. -/
def leaveRoom (s : HookState) : HookState × List Op :=
  ({ s with
      pcs := [],
      remoteStreams := [],
      connectedPeers := [],
      closedPcs := s.closedPcs ++ s.pcs.map (fun e => e.2.pcId) },
   [Op.sendLeave])

/-- `stopLocalTracks` (useWebRTC.ts:218-221): stop every track of the
local stream and drop the reference. -/
def stopLocalTracks (s : HookState) : HookState :=
  match s.localStream with
  | some ts =>
      { s with stoppedTracks := s.stoppedTracks ++ ts.map Track.tid,
               localStream := none }
  | none => s

/-- `startScreenShare` (useWebRTC.ts:408-468), after `getDisplayMedia`
returned a stream whose first video track is `screenTrack`: replace the
video sender's track on every connection, record the stream and flag,
emit `start-screen-share`. -/
def startScreenShare (s : HookState) (screenTrack : Track) :
    HookState × List Op :=
  ({ s with
      pcs := s.pcs.map (fun e => (e.1, e.2.replaceVideoTrack screenTrack)),
      screenShareStream := some [screenTrack],
      isScreenSharing := true },
   [Op.sendStartShare])

/-- `stopScreenShare` (useWebRTC.ts:470-492): stop the screen-share
tracks, clear the flag, restore the camera video track on every
connection's video sender, emit `stop-screen-share`. -/
def stopScreenShare (s : HookState) : HookState × List Op :=
  let s₁ :=
    match s.screenShareStream with
    | some ts =>
        { s with stoppedTracks := s.stoppedTracks ++ ts.map Track.tid,
                 screenShareStream := none }
    | none => s
  let s₂ := { s₁ with isScreenSharing := false }
  let s₃ :=
    match s₂.localStream with
    | some ts =>
        match ts.find? (fun t => t.kind = TrackKind.video) with
        | some vt =>
            { s₂ with
                pcs := s₂.pcs.map (fun e => (e.1, e.2.replaceVideoTrack vt)) }
        | none => s₂
    | none => s₂
  (s₃, [Op.sendStopShare])

/-- `handleLeave` (WebRTCRoom.tsx): the explicit leave path of the UI,
`stopLocalTracks()` followed by `leaveRoom()`. -/
def handleLeave (s : HookState) : HookState × List Op :=
  leaveRoom (stopLocalTracks s)

/-! ### Membership event sequences (for the invariant claims) -/

inductive MemEvent where
  | existingUsers (users : List PeerId)
  | userJoined (p : PeerId)
  | userLeft (p : PeerId)
deriving DecidableEq, Repr

def stepMem (selfId : PeerId) (s : HookState) : MemEvent → HookState
  | .existingUsers us => (onExistingUsers selfId s us).1
  | .userJoined p => (onUserJoined s p).1
  | .userLeft p => (onUserLeft s p).1

def runMem (selfId : PeerId) (s : HookState) : List MemEvent → HookState
  | [] => s
  | e :: es => runMem selfId (stepMem selfId s e) es

/-- Recognizer for outbound offer messages in a trace. -/
def Op.isSendOffer : Op → Bool
  | .sendOffer _ _ => true
  | _ => false

/-- Recognizer for the session-creating operations: constructing a
connection or attaching a local track (successfully or not). -/
def Op.isSessionCreating : Op → Bool
  | .createPc _ => true
  | .addTrackOk _ _ => true
  | .addTrackErr _ _ => true
  | _ => false

/-- The alignment invariant of the spec: a peer is in the membership
list exactly when it is a key of the connection registry. -/
def MembershipRegistryAligned (s : HookState) : Prop :=
  ∀ q : PeerId, q ∈ s.connectedPeers ↔ q ∈ alistKeys s.pcs

/-- The local capture stream used in the concrete scenarios: one audio
track (id 0) and one video track (id 1). -/
def exampleTracks : List Track := [⟨0, .audio⟩, ⟨1, .video⟩]

/-- A state in which the local participant has joined and started local
media. -/
def exampleMediaState : HookState :=
  { initState with localStream := some exampleTracks }

/-- The state after `bob` joins (one session, offer sent). -/
def exampleJoinedState : HookState := (onUserJoined exampleMediaState "bob").1

/-- The connection stored for `bob` in `exampleJoinedState`. -/
def exampleJoinedPc : PC :=
  (alistLookup exampleJoinedState.pcs "bob").getD (freshPc 0)

/-- The state after an inbound offer from `bob` was handled (session
`Stable`, answer sent). -/
def exampleOfferedState : HookState :=
  (onOffer exampleMediaState "bob" ⟨SdpType.offer, 7⟩).1

/-- The connection stored for `bob` in `exampleOfferedState`. -/
def exampleOfferedPc : PC :=
  (alistLookup exampleOfferedState.pcs "bob").getD (freshPc 0)

/-- The state after a local call to `bob` was started (session in
`have-local-offer`, no remote description yet). -/
def exampleCallState : HookState := (startCallWith exampleMediaState "bob").1

/-- A media state with an active screen share (video track id 5). -/
def exampleShareState : HookState :=
  { exampleMediaState with screenShareStream := some [⟨5, TrackKind.video⟩] }

/-! ### Association-list lemmas -/

theorem alistKeys_nil {β : Type} : alistKeys ([] : List (PeerId × β)) = [] := rfl

theorem alistKeys_cons {β : Type} (q : PeerId) (x : β) (m : List (PeerId × β)) :
    alistKeys ((q, x) :: m) = q :: alistKeys m := rfl

theorem alistLookup_set_self {β : Type} (m : List (PeerId × β)) (p : PeerId) (b : β) :
    alistLookup (alistSet m p b) p = some b := by
  induction m with
  | nil => simp [alistSet, alistLookup]
  | cons e rest ih =>
      obtain ⟨q, x⟩ := e
      by_cases h : q = p
      · subst h; simp [alistSet, alistLookup]
      · simp [alistSet, alistLookup, h, ih]

theorem alistLookup_set_ne {β : Type} (m : List (PeerId × β)) (p q : PeerId) (b : β)
    (h : q ≠ p) : alistLookup (alistSet m p b) q = alistLookup m q := by
  induction m with
  | nil => simp [alistSet, alistLookup, Ne.symm h]
  | cons e rest ih =>
      obtain ⟨r, x⟩ := e
      by_cases hr : r = p
      · subst hr
        simp [alistSet, alistLookup, Ne.symm h]
      · simp [alistSet, alistLookup, hr, ih]

theorem alistKeys_set {β : Type} (m : List (PeerId × β)) (p : PeerId) (b : β) :
    alistKeys (alistSet m p b) =
      if p ∈ alistKeys m then alistKeys m else alistKeys m ++ [p] := by
  induction m with
  | nil => simp [alistSet, alistKeys]
  | cons e rest ih =>
      obtain ⟨q, x⟩ := e
      by_cases h : q = p
      · subst h; simp [alistSet, alistKeys]
      · rw [alistKeys_cons]
        have hne : ¬ p = q := fun hh => h hh.symm
        by_cases hm : p ∈ alistKeys rest
        · simp [alistSet, h, alistKeys_cons, ih, hm, List.mem_cons, hne]
        · simp [alistSet, h, alistKeys_cons, ih, hm, List.mem_cons, hne]

theorem alistLookup_isSome_iff {β : Type} (m : List (PeerId × β)) (p : PeerId) :
    (alistLookup m p).isSome = true ↔ p ∈ alistKeys m := by
  induction m with
  | nil => simp [alistLookup, alistKeys]
  | cons e rest ih =>
      obtain ⟨q, x⟩ := e
      by_cases h : q = p
      · subst h; simp [alistLookup, alistKeys_cons]
      · simp [alistLookup, alistKeys_cons, h, ih, Ne.symm h]

theorem alistLookup_eq_none_of_not_mem {β : Type} {m : List (PeerId × β)} {p : PeerId}
    (h : p ∉ alistKeys m) : alistLookup m p = none := by
  cases hl : alistLookup m p with
  | none => rfl
  | some b =>
      exact absurd ((alistLookup_isSome_iff m p).mp (by simp [hl])) h

theorem alistLookup_some_mem {β : Type} {m : List (PeerId × β)} {p : PeerId} {b : β}
    (h : alistLookup m p = some b) : (p, b) ∈ m := by
  induction m with
  | nil => simp [alistLookup] at h
  | cons e rest ih =>
      obtain ⟨q, x⟩ := e
      by_cases hq : q = p
      · subst hq
        simp [alistLookup] at h
        subst h
        exact List.mem_cons_self _ _
      · simp [alistLookup, hq] at h
        exact List.mem_cons_of_mem _ (ih h)

theorem alistLookup_map {β γ : Type} (f : β → γ) (m : List (PeerId × β)) (p : PeerId) :
    alistLookup (m.map (fun e => (e.1, f e.2))) p = (alistLookup m p).map f := by
  induction m with
  | nil => simp [alistLookup]
  | cons e rest ih =>
      obtain ⟨q, x⟩ := e
      by_cases h : q = p
      · subst h; simp [alistLookup]
      · simp [alistLookup, h, ih]

theorem alistKeys_erase_mem {β : Type} {m : List (PeerId × β)}
    (hnd : (alistKeys m).Nodup) (p q : PeerId) :
    q ∈ alistKeys (alistErase m p) ↔ q ∈ alistKeys m ∧ q ≠ p := by
  induction m with
  | nil => simp [alistErase, alistKeys]
  | cons e rest ih =>
      obtain ⟨r, x⟩ := e
      rw [alistKeys_cons] at hnd
      have hr : r ∉ alistKeys rest := (List.nodup_cons.mp hnd).1
      have hrest : (alistKeys rest).Nodup := (List.nodup_cons.mp hnd).2
      by_cases h : r = p
      · subst h
        simp only [alistErase, if_pos rfl, alistKeys_cons, List.mem_cons]
        constructor
        · intro hq
          exact ⟨Or.inr hq, fun hqp => hr (hqp ▸ hq)⟩
        · rintro ⟨hq | hq, hne⟩
          · exact absurd hq hne
          · exact hq
      · simp only [alistErase, if_neg h, alistKeys_cons, List.mem_cons]
        constructor
        · rintro (hq | hq)
          · exact ⟨Or.inl hq, fun hqp => h (hq.symm.trans hqp)⟩
          · obtain ⟨h1, h2⟩ := (ih hrest).mp hq
            exact ⟨Or.inr h1, h2⟩
        · rintro ⟨hq | hq, hne⟩
          · exact Or.inl hq
          · exact Or.inr ((ih hrest).mpr ⟨hq, hne⟩)

theorem alistKeys_erase_nodup {β : Type} {m : List (PeerId × β)}
    (hnd : (alistKeys m).Nodup) (p : PeerId) :
    (alistKeys (alistErase m p)).Nodup := by
  induction m with
  | nil => simpa [alistErase] using hnd
  | cons e rest ih =>
      obtain ⟨r, x⟩ := e
      rw [alistKeys_cons] at hnd
      have hr : r ∉ alistKeys rest := (List.nodup_cons.mp hnd).1
      have hrest : (alistKeys rest).Nodup := (List.nodup_cons.mp hnd).2
      by_cases h : r = p
      · subst h
        simpa [alistErase] using hrest
      · rw [show alistErase ((r, x) :: rest) p = (r, x) :: alistErase rest p by
              simp [alistErase, h]]
        rw [alistKeys_cons, List.nodup_cons]
        refine ⟨fun hmem => ?_, ih hrest⟩
        exact hr ((alistKeys_erase_mem hrest p r).mp hmem).1

theorem alistKeys_set_nodup {β : Type} {m : List (PeerId × β)}
    (hnd : (alistKeys m).Nodup) (p : PeerId) (b : β) :
    (alistKeys (alistSet m p b)).Nodup := by
  rw [alistKeys_set]
  by_cases h : p ∈ alistKeys m
  · simpa [h] using hnd
  · simp only [h, if_false]
    refine List.Nodup.append hnd (List.nodup_singleton p) ?_
    intro a ha hb
    rw [List.mem_singleton] at hb
    exact h (hb ▸ ha)

theorem alistLookup_erase_self {β : Type} {m : List (PeerId × β)}
    (hnd : (alistKeys m).Nodup) (p : PeerId) :
    alistLookup (alistErase m p) p = none := by
  apply alistLookup_eq_none_of_not_mem
  intro hmem
  exact ((alistKeys_erase_mem hnd p p).mp hmem).2 rfl

/-! ### Lemmas about the embedded connection operations -/

theorem PC.addTrack_ok {pc pc' : PC} {t : Track} (h : pc.addTrack t = .ok pc') :
    pc' = { pc with senders := pc.senders ++ [{ track := some t }] } := by
  unfold PC.addTrack at h
  split at h
  · simp at h
  · injection h with h
    exact h.symm

theorem PC.addTrack_ok_of_absent {pc : PC} {t : Track}
    (h : pc.senders.any (fun s => s.track = some t) = false) :
    pc.addTrack t = .ok { pc with senders := pc.senders ++ [{ track := some t }] } := by
  unfold PC.addTrack
  simp [h]

theorem PC.setRemoteDescription_ok_fields {pc pc' : PC} {d : SessionDescription}
    (h : pc.setRemoteDescription d = .ok pc') :
    pc'.senders = pc.senders ∧ pc'.pcId = pc.pcId ∧ pc'.remoteDesc = some d := by
  unfold PC.setRemoteDescription at h
  split at h <;> split at h <;>
    first
      | (injection h with h; subst h; exact ⟨rfl, rfl, rfl⟩)
      | (simp at h)

theorem PC.setLocalDescription_ok_fields {pc pc' : PC} {d : SessionDescription}
    (h : pc.setLocalDescription d = .ok pc') :
    pc'.senders = pc.senders ∧ pc'.pcId = pc.pcId ∧ pc'.remoteDesc = pc.remoteDesc := by
  unfold PC.setLocalDescription at h
  split at h <;> split at h <;>
    first
      | (injection h with h; subst h; exact ⟨rfl, rfl, rfl⟩)
      | (simp at h)

theorem PC.setRemoteDescription_answer_not_offerSent {pc : PC} {d : SessionDescription}
    (hd : d.sdpType = .answer) (hst : pc.signalingState ≠ .haveLocalOffer) :
    pc.setRemoteDescription d =
      .error "InvalidStateError: setRemoteDescription(answer)" := by
  unfold PC.setRemoteDescription
  rw [hd]
  simp [hst]

theorem replaceFirstVideo_length (l : List Sender) (t : Track) :
    (replaceFirstVideo l t).length = l.length := by
  induction l with
  | nil => rfl
  | cons s rest ih =>
      cases hs : s.track with
      | none => simp [replaceFirstVideo, hs, ih]
      | some tr =>
          by_cases hk : tr.kind = TrackKind.video
          · simp [replaceFirstVideo, hs, hk]
          · simp [replaceFirstVideo, hs, hk, ih]

theorem PC.replaceVideoTrack_senders_length (pc : PC) (t : Track) :
    (pc.replaceVideoTrack t).senders.length = pc.senders.length := by
  unfold PC.replaceVideoTrack
  exact replaceFirstVideo_length _ _

/-! ### Lemmas about the track-attachment loop -/

theorem addLocalTracks_state_fields (p : PeerId) (pc : PC) (ts : List Track) :
    (addLocalTracks p pc ts).1.signalingState = pc.signalingState ∧
    (addLocalTracks p pc ts).1.remoteDesc = pc.remoteDesc ∧
    (addLocalTracks p pc ts).1.pcId = pc.pcId := by
  induction ts generalizing pc with
  | nil => exact ⟨rfl, rfl, rfl⟩
  | cons t ts ih =>
      simp only [addLocalTracks]
      cases h : pc.addTrack t with
      | ok pc' =>
          obtain rfl := PC.addTrack_ok h
          simpa using ih _
      | error e => simpa using ih pc

theorem addLocalTracks_ops_shape (p : PeerId) (pc : PC) (ts : List Track) :
    ∀ o ∈ (addLocalTracks p pc ts).2,
      (∃ n, o = Op.addTrackOk p n) ∨ (∃ n, o = Op.addTrackErr p n) := by
  induction ts generalizing pc with
  | nil => intro o ho; simp [addLocalTracks] at ho
  | cons t ts ih =>
      intro o ho
      simp only [addLocalTracks] at ho
      cases h : pc.addTrack t with
      | ok pc' =>
          rw [h] at ho
          simp only [List.mem_cons] at ho
          rcases ho with rfl | ho
          · exact Or.inl ⟨t.tid, rfl⟩
          · exact ih pc' o ho
      | error e =>
          rw [h] at ho
          simp only [List.mem_cons] at ho
          rcases ho with rfl | ho
          · exact Or.inr ⟨t.tid, rfl⟩
          · exact ih pc o ho

theorem addLocalTracks_senders_of_fresh (p : PeerId) (ts : List Track) (pc : PC)
    (hnd : ts.Nodup)
    (hfresh : ∀ t ∈ ts, pc.senders.any (fun s => s.track = some t) = false) :
    (addLocalTracks p pc ts).1.senders =
      pc.senders ++ ts.map (fun t => { track := some t }) := by
  induction ts generalizing pc with
  | nil => simp [addLocalTracks]
  | cons t ts ih =>
      have hok := PC.addTrack_ok_of_absent (hfresh t (List.mem_cons_self _ _))
      simp only [addLocalTracks, hok]
      have hnd' := (List.nodup_cons.mp hnd).2
      have hnotmem := (List.nodup_cons.mp hnd).1
      have hfresh' : ∀ t' ∈ ts,
          (pc.senders ++ [{ track := some t }] : List Sender).any
            (fun s => s.track = some t') = false := by
        intro t' ht'
        rw [List.any_append]
        have h1 := hfresh t' (List.mem_cons_of_mem _ ht')
        have h2 : ([{ track := some t }] : List Sender).any
            (fun s => s.track = some t') = false := by
          simp only [List.any_cons, List.any_nil, Bool.or_false]
          simp only [decide_eq_false_iff_not]
          intro hc
          simp only [Option.some.injEq] at hc
          exact hnotmem (hc ▸ ht')
        rw [h1, h2]
        rfl
      rw [ih _ hnd' hfresh']
      simp

/-! ### Resolving `startCallWith` -/

theorem setLocalDescription_offer_of_stable {pc : PC}
    (h : pc.signalingState = .stable) :
    pc.setLocalDescription (PC.createOffer pc) =
      .ok { pc with localDesc := some (PC.createOffer pc),
                    signalingState := .haveLocalOffer } := by
  unfold PC.setLocalDescription PC.createOffer
  simp [h]

theorem startCallWith_resolve_none (s : HookState) (p : PeerId)
    (hls : s.localStream = none) :
    startCallWith s p =
      ({ s with
           pcs := alistSet (alistSet s.pcs p (freshPc s.nextPcId)) p
             { freshPc s.nextPcId with
                 localDesc := some (PC.createOffer (freshPc s.nextPcId)),
                 signalingState := .haveLocalOffer },
           nextPcId := s.nextPcId + 1 },
       [Op.createPc p, Op.sendOffer p s.nextPcId]) := by
  have hok := setLocalDescription_offer_of_stable
    (show (freshPc s.nextPcId).signalingState = .stable from rfl)
  simp only [freshPc, PC.createOffer] at hok
  simp [startCallWith, createPeerConnection, hls, hok, PC.createOffer, freshPc]

theorem startCallWith_resolve_some (s : HookState) (p : PeerId)
    (tracks : List Track) (hls : s.localStream = some tracks) :
    startCallWith s p =
      ({ s with
           pcs := alistSet (alistSet s.pcs p (freshPc s.nextPcId)) p
             { (addLocalTracks p (freshPc s.nextPcId) tracks).1 with
                 localDesc := some
                   (PC.createOffer (addLocalTracks p (freshPc s.nextPcId) tracks).1),
                 signalingState := .haveLocalOffer },
           nextPcId := s.nextPcId + 1 },
       Op.createPc p :: (addLocalTracks p (freshPc s.nextPcId) tracks).2
         ++ [Op.sendOffer p (addLocalTracks p (freshPc s.nextPcId) tracks).1.pcId]) := by
  have hst : (addLocalTracks p (freshPc s.nextPcId) tracks).1.signalingState =
      .stable :=
    (addLocalTracks_state_fields p (freshPc s.nextPcId) tracks).1
  have hok := setLocalDescription_offer_of_stable hst
  simp only [freshPc, PC.createOffer] at hok
  simp [startCallWith, createPeerConnection, hls, hok, PC.createOffer, freshPc]

theorem alistKeys_set_set {β : Type} (m : List (PeerId × β)) (p : PeerId) (a b : β) :
    alistKeys (alistSet (alistSet m p a) p b) =
      if p ∈ alistKeys m then alistKeys m else alistKeys m ++ [p] := by
  rw [alistKeys_set, alistKeys_set]
  by_cases h : p ∈ alistKeys m
  · simp [h]
  · simp [h]

theorem startCallWith_frame (s : HookState) (p : PeerId) :
    (startCallWith s p).1.connectedPeers = s.connectedPeers ∧
    (startCallWith s p).1.localStream = s.localStream ∧
    (startCallWith s p).1.remoteStreams = s.remoteStreams ∧
    (startCallWith s p).1.closedPcs = s.closedPcs ∧
    (startCallWith s p).1.stoppedTracks = s.stoppedTracks ∧
    (startCallWith s p).1.screenShareStream = s.screenShareStream := by
  cases hls : s.localStream with
  | none =>
      rw [startCallWith_resolve_none s p hls]
      exact ⟨rfl, hls, rfl, rfl, rfl, rfl⟩
  | some tracks =>
      rw [startCallWith_resolve_some s p tracks hls]
      exact ⟨rfl, hls, rfl, rfl, rfl, rfl⟩

theorem startCallWith_keys (s : HookState) (p : PeerId) :
    alistKeys (startCallWith s p).1.pcs =
      if p ∈ alistKeys s.pcs then alistKeys s.pcs else alistKeys s.pcs ++ [p] := by
  cases hls : s.localStream with
  | none =>
      rw [startCallWith_resolve_none s p hls]
      exact alistKeys_set_set s.pcs p _ _
  | some tracks =>
      rw [startCallWith_resolve_some s p tracks hls]
      exact alistKeys_set_set s.pcs p _ _

theorem startCallWith_lookup (s : HookState) (p : PeerId) :
    ∃ pcF, alistLookup (startCallWith s p).1.pcs p = some pcF ∧
      pcF.signalingState = .haveLocalOffer ∧
      pcF.pcId = s.nextPcId ∧ pcF.remoteDesc = none := by
  cases hls : s.localStream with
  | none =>
      rw [startCallWith_resolve_none s p hls]
      exact ⟨_, alistLookup_set_self _ p _, rfl, rfl, rfl⟩
  | some tracks =>
      rw [startCallWith_resolve_some s p tracks hls]
      refine ⟨_, alistLookup_set_self _ p _, rfl, ?_, ?_⟩
      · exact (addLocalTracks_state_fields p (freshPc s.nextPcId) tracks).2.2
      · exact (addLocalTracks_state_fields p (freshPc s.nextPcId) tracks).2.1

theorem startCallWith_ops_sendOffer (s : HookState) (p : PeerId) :
    (startCallWith s p).2.filter Op.isSendOffer = [Op.sendOffer p s.nextPcId] := by
  cases hls : s.localStream with
  | none =>
      rw [startCallWith_resolve_none s p hls]
      rfl
  | some tracks =>
      rw [startCallWith_resolve_some s p tracks hls]
      have htr : ((addLocalTracks p (freshPc s.nextPcId) tracks).2).filter
          Op.isSendOffer = [] := by
        rw [List.filter_eq_nil]
        intro o ho
        rcases addLocalTracks_ops_shape p (freshPc s.nextPcId) tracks o ho with
          ⟨n, rfl⟩ | ⟨n, rfl⟩ <;> simp [Op.isSendOffer]
      have hid : (addLocalTracks p (freshPc s.nextPcId) tracks).1.pcId =
          s.nextPcId :=
        (addLocalTracks_state_fields p (freshPc s.nextPcId) tracks).2.2
      simp [List.filter_append, htr, hid, Op.isSendOffer]

theorem guarded_add_nodup {l : List PeerId} (h : l.Nodup) (p : PeerId) :
    (if p ∈ l then l else l ++ [p]).Nodup := by
  by_cases hm : p ∈ l
  · simpa [hm] using h
  · simp only [hm, if_false]
    refine List.Nodup.append h (List.nodup_singleton p) ?_
    intro a ha hb
    rw [List.mem_singleton] at hb
    exact hm (hb ▸ ha)

/-! ### Resolving the membership handlers -/

theorem onUserJoined_eq_no_media (s : HookState) (p : PeerId)
    (hls : s.localStream = none) :
    onUserJoined s p =
      (if p ∈ s.connectedPeers then s
       else { s with connectedPeers := s.connectedPeers ++ [p] }, []) := by
  by_cases h : p ∈ s.connectedPeers <;> simp [onUserJoined, h, hls]

theorem onUserJoined_eq_media (s : HookState) (p : PeerId) (ts : List Track)
    (hls : s.localStream = some ts) :
    onUserJoined s p =
      startCallWith
        (if p ∈ s.connectedPeers then s
         else { s with connectedPeers := s.connectedPeers ++ [p] }) p := by
  by_cases h : p ∈ s.connectedPeers <;> simp [onUserJoined, h, hls]

theorem onExistingUsers_cons_state (selfId : PeerId) (s : HookState)
    (u : PeerId) (us : List PeerId) :
    (onExistingUsers selfId s (u :: us)).1 =
      if u = selfId then (onExistingUsers selfId s us).1
      else (onExistingUsers selfId (onUserJoined s u).1 us).1 := by
  by_cases h : u = selfId
  · simp [onExistingUsers, h]
  · simp only [onExistingUsers, h, if_false, onUserJoined]
    cases hls : (if u ∈ s.connectedPeers then s
        else { s with connectedPeers := s.connectedPeers ++ [u] }).localStream with
    | none => simp [hls]
    | some tracks => simp [hls]

theorem onUserJoined_connectedPeers (s : HookState) (p : PeerId) :
    (onUserJoined s p).1.connectedPeers =
      if p ∈ s.connectedPeers then s.connectedPeers
      else s.connectedPeers ++ [p] := by
  cases hls : s.localStream with
  | none =>
      rw [onUserJoined_eq_no_media s p hls]
      by_cases h : p ∈ s.connectedPeers <;> simp [h]
  | some ts =>
      rw [onUserJoined_eq_media s p ts hls]
      rw [(startCallWith_frame _ p).1]
      by_cases h : p ∈ s.connectedPeers <;> simp [h]

theorem onUserJoined_localStream (s : HookState) (p : PeerId) :
    (onUserJoined s p).1.localStream = s.localStream := by
  cases hls : s.localStream with
  | none =>
      rw [onUserJoined_eq_no_media s p hls]
      by_cases h : p ∈ s.connectedPeers <;> simp [h, hls]
  | some ts =>
      rw [onUserJoined_eq_media s p ts hls]
      rw [(startCallWith_frame _ p).2.1]
      by_cases h : p ∈ s.connectedPeers <;> simp [h, hls]

theorem onUserJoined_keys_media (s : HookState) (p : PeerId) (ts : List Track)
    (hls : s.localStream = some ts) :
    alistKeys (onUserJoined s p).1.pcs =
      if p ∈ alistKeys s.pcs then alistKeys s.pcs
      else alistKeys s.pcs ++ [p] := by
  rw [onUserJoined_eq_media s p ts hls]
  rw [startCallWith_keys]
  by_cases h : p ∈ s.connectedPeers <;> simp [h]

theorem onUserLeft_state (s : HookState) (p : PeerId) :
    (onUserLeft s p).1.connectedPeers = s.connectedPeers.filter (fun q => q ≠ p) ∧
    (onUserLeft s p).1.pcs = alistErase s.pcs p ∧
    (onUserLeft s p).1.remoteStreams = alistErase s.remoteStreams p ∧
    (onUserLeft s p).1.localStream = s.localStream :=
  ⟨rfl, rfl, rfl, rfl⟩

/-! ### Invariant preservation over membership events -/

theorem onUserJoined_nodup {s : HookState} (h : s.connectedPeers.Nodup)
    (p : PeerId) : (onUserJoined s p).1.connectedPeers.Nodup := by
  rw [onUserJoined_connectedPeers]
  exact guarded_add_nodup h p

theorem onUserLeft_nodup {s : HookState} (h : s.connectedPeers.Nodup)
    (p : PeerId) : (onUserLeft s p).1.connectedPeers.Nodup := by
  rw [(onUserLeft_state s p).1]
  exact h.filter _

theorem onExistingUsers_nodup (selfId : PeerId) (us : List PeerId) :
    ∀ s : HookState, s.connectedPeers.Nodup →
      (onExistingUsers selfId s us).1.connectedPeers.Nodup := by
  induction us with
  | nil => intro s h; exact h
  | cons u us ih =>
      intro s h
      rw [onExistingUsers_cons_state]
      by_cases hu : u = selfId
      · rw [if_pos hu]; exact ih s h
      · rw [if_neg hu]; exact ih _ (onUserJoined_nodup h u)

theorem stepMem_nodup (selfId : PeerId) (s : HookState) (e : MemEvent)
    (h : s.connectedPeers.Nodup) : (stepMem selfId s e).connectedPeers.Nodup := by
  cases e with
  | existingUsers us => exact onExistingUsers_nodup selfId us s h
  | userJoined p => exact onUserJoined_nodup h p
  | userLeft p => exact onUserLeft_nodup h p

theorem runMem_nodup (selfId : PeerId) (evs : List MemEvent) :
    ∀ s : HookState, s.connectedPeers.Nodup →
      (runMem selfId s evs).connectedPeers.Nodup := by
  induction evs with
  | nil => intro s h; exact h
  | cons e es ih => intro s h; exact ih _ (stepMem_nodup selfId s e h)

/-- The inductive invariant behind the amended C3: local media is
active, the registry keys carry no duplicates, and membership agrees
with the registry keys. -/
def AlignedInv (s : HookState) : Prop :=
  s.localStream.isSome = true ∧ (alistKeys s.pcs).Nodup ∧
    MembershipRegistryAligned s

theorem onUserJoined_alignedInv {s : HookState} (h : AlignedInv s)
    (p : PeerId) : AlignedInv (onUserJoined s p).1 := by
  obtain ⟨hm, hk, ha⟩ := h
  obtain ⟨ts, hls⟩ := Option.isSome_iff_exists.mp hm
  have hkeys := onUserJoined_keys_media s p ts hls
  have hpeers := onUserJoined_connectedPeers s p
  have hstream := onUserJoined_localStream s p
  refine ⟨by rw [hstream, hls]; rfl, ?_, ?_⟩
  · rw [hkeys]
    exact guarded_add_nodup hk p
  · intro q
    rw [hpeers, hkeys] at *
    by_cases hp : p ∈ s.connectedPeers
    · have hp' : p ∈ alistKeys s.pcs := (ha p).mp hp
      simp only [hp, hp', if_true]
      exact ha q
    · have hp' : p ∉ alistKeys s.pcs := fun hc => hp ((ha p).mpr hc)
      simp only [hp, hp', if_false, List.mem_append, List.mem_singleton]
      exact ⟨fun hq => hq.imp (ha q).mp id, fun hq => hq.imp (ha q).mpr id⟩

theorem onUserLeft_alignedInv {s : HookState} (h : AlignedInv s)
    (p : PeerId) : AlignedInv (onUserLeft s p).1 := by
  obtain ⟨hm, hk, ha⟩ := h
  obtain ⟨hpeers, hpcs, _, hstream⟩ := onUserLeft_state s p
  refine ⟨by rw [hstream]; exact hm, ?_, ?_⟩
  · rw [hpcs]; exact alistKeys_erase_nodup hk p
  · intro q
    rw [hpeers, hpcs, List.mem_filter, alistKeys_erase_mem hk p q]
    constructor
    · rintro ⟨hq, hne⟩
      exact ⟨(ha q).mp hq, by simpa using hne⟩
    · rintro ⟨hq, hne⟩
      exact ⟨(ha q).mpr hq, by simpa using hne⟩

theorem onExistingUsers_alignedInv (selfId : PeerId) (us : List PeerId) :
    ∀ s : HookState, AlignedInv s →
      AlignedInv (onExistingUsers selfId s us).1 := by
  induction us with
  | nil => intro s h; exact h
  | cons u us ih =>
      intro s h
      rw [onExistingUsers_cons_state]
      by_cases hu : u = selfId
      · rw [if_pos hu]; exact ih s h
      · rw [if_neg hu]; exact ih _ (onUserJoined_alignedInv h u)

theorem stepMem_alignedInv (selfId : PeerId) (s : HookState) (e : MemEvent)
    (h : AlignedInv s) : AlignedInv (stepMem selfId s e) := by
  cases e with
  | existingUsers us => exact onExistingUsers_alignedInv selfId us s h
  | userJoined p => exact onUserJoined_alignedInv h p
  | userLeft p => exact onUserLeft_alignedInv h p

theorem runMem_alignedInv (selfId : PeerId) (evs : List MemEvent) :
    ∀ s : HookState, AlignedInv s → AlignedInv (runMem selfId s evs) := by
  induction evs with
  | nil => intro s h; exact h
  | cons e es ih => intro s h; exact ih _ (stepMem_alignedInv selfId s e h)

/-! ### Behaviour of the signaling handlers on existing sessions -/

theorem onOffer_existing (s : HookState) (p : PeerId) (d : SessionDescription)
    (pc : PC) (hpc : alistLookup s.pcs p = some pc) :
    ∃ pc', (onOffer s p d).1 = { s with pcs := alistSet s.pcs p pc' } ∧
      pc'.senders = pc.senders ∧ pc'.pcId = pc.pcId ∧
      (onOffer s p d).2.filter Op.isSessionCreating = [] := by
  simp only [onOffer, hpc]
  cases hr : pc.setRemoteDescription d with
  | error e => exact ⟨pc, rfl, rfl, rfl, rfl⟩
  | ok pc₂ =>
      obtain ⟨hs₂, hid₂, _⟩ := PC.setRemoteDescription_ok_fields hr
      dsimp only
      cases ha : pc₂.createAnswer with
      | error e => exact ⟨pc₂, rfl, hs₂, hid₂, rfl⟩
      | ok ans =>
          dsimp only
          cases hl : pc₂.setLocalDescription ans with
          | error e => exact ⟨pc₂, rfl, hs₂, hid₂, rfl⟩
          | ok pc₃ =>
              obtain ⟨hs₃, hid₃, _⟩ := PC.setLocalDescription_ok_fields hl
              exact ⟨pc₃, rfl, hs₃.trans hs₂, hid₃.trans hid₂, rfl⟩

theorem onAnswer_rejected (s : HookState) (p : PeerId) (d : SessionDescription)
    (hd : d.sdpType = .answer)
    (hnot : ∀ pc, alistLookup s.pcs p = some pc →
      pc.signalingState ≠ .haveLocalOffer) :
    (onAnswer s p d).1 = s ∧
    ((onAnswer s p d).2 = [Op.warnLogged "no peer connection found"] ∨
     (onAnswer s p d).2 =
       [Op.errorLogged "InvalidStateError: setRemoteDescription(answer)"]) := by
  cases hl : alistLookup s.pcs p with
  | none => simp [onAnswer, hl]
  | some pc =>
      have herr := PC.setRemoteDescription_answer_not_offerSent hd (hnot pc hl)
      simp [onAnswer, hl, herr]

theorem onCandidate_no_session (s : HookState) (p : PeerId) (c : Nat)
    (hl : alistLookup s.pcs p = none) :
    onCandidate s p c =
      (s, [Op.warnLogged "no peer connection found for candidate"]) := by
  simp [onCandidate, hl]

theorem onCandidate_applied (s : HookState) (p : PeerId) (c : Nat) (pc : PC)
    (hl : alistLookup s.pcs p = some pc) (hr : pc.remoteDesc.isSome = true) :
    onCandidate s p c =
      ({ s with pcs := alistSet s.pcs p ({ pc with appliedCandidates := pc.appliedCandidates ++ [c] }) },
       [Op.addCandidateOk p c]) := by
  simp [onCandidate, hl, PC.addIceCandidate, hr]

theorem onCandidate_discarded (s : HookState) (p : PeerId) (c : Nat) (pc : PC)
    (hl : alistLookup s.pcs p = some pc) (hr : pc.remoteDesc = none) :
    onCandidate s p c =
      (s, [Op.errorLogged
            "InvalidStateError: addIceCandidate before remote description"]) := by
  simp [onCandidate, hl, PC.addIceCandidate, hr]

theorem startScreenShare_lookup (s : HookState) (t : Track) (p : PeerId)
    (pc : PC) (h : alistLookup s.pcs p = some pc) :
    alistLookup (startScreenShare s t).1.pcs p =
      some (pc.replaceVideoTrack t) := by
  have hm := alistLookup_map (fun q : PC => q.replaceVideoTrack t) s.pcs p
  rw [h] at hm
  exact hm

theorem stopScreenShare_lookup (s : HookState) (p : PeerId) (pc : PC)
    (h : alistLookup s.pcs p = some pc) :
    ∃ pc', alistLookup (stopScreenShare s).1.pcs p = some pc' ∧
      pc'.senders.length = pc.senders.length := by
  cases hss : s.screenShareStream with
  | none =>
      cases hls : s.localStream with
      | none =>
          refine ⟨pc, ?_, rfl⟩
          simp only [stopScreenShare, hss, hls]
          exact h
      | some ts =>
          cases hv : ts.find? (fun t => t.kind = TrackKind.video) with
          | none =>
              refine ⟨pc, ?_, rfl⟩
              simp only [stopScreenShare, hss, hls, hv]
              exact h
          | some vt =>
              refine ⟨pc.replaceVideoTrack vt, ?_,
                PC.replaceVideoTrack_senders_length pc vt⟩
              simp only [stopScreenShare, hss, hls, hv]
              have hm := alistLookup_map (fun q : PC => q.replaceVideoTrack vt) s.pcs p
              rw [h] at hm
              exact hm
  | some ss =>
      cases hls : s.localStream with
      | none =>
          refine ⟨pc, ?_, rfl⟩
          simp only [stopScreenShare, hss, hls]
          exact h
      | some ts =>
          cases hv : ts.find? (fun t => t.kind = TrackKind.video) with
          | none =>
              refine ⟨pc, ?_, rfl⟩
              simp only [stopScreenShare, hss, hls, hv]
              exact h
          | some vt =>
              refine ⟨pc.replaceVideoTrack vt, ?_,
                PC.replaceVideoTrack_senders_length pc vt⟩
              simp only [stopScreenShare, hss, hls, hv]
              have hm := alistLookup_map (fun q : PC => q.replaceVideoTrack vt) s.pcs p
              rw [h] at hm
              exact hm

/-! ### Teardown and track-stop lemmas -/

theorem onUserLeft_closed (s : HookState) (p : PeerId) (pc : PC)
    (h : alistLookup s.pcs p = some pc) :
    (onUserLeft s p).1.closedPcs = s.closedPcs ++ [pc.pcId] := by
  simp [onUserLeft, h]

theorem leaveRoom_state (s : HookState) :
    (leaveRoom s).1.pcs = [] ∧ (leaveRoom s).1.remoteStreams = [] ∧
    (leaveRoom s).1.connectedPeers = [] ∧
    (leaveRoom s).1.closedPcs = s.closedPcs ++ s.pcs.map (fun e => e.2.pcId) :=
  ⟨rfl, rfl, rfl, rfl⟩

theorem handleLeave_stopped (s : HookState) (ts : List Track)
    (hl : s.localStream = some ts) :
    (handleLeave s).1.stoppedTracks = s.stoppedTracks ++ ts.map Track.tid ∧
    (handleLeave s).1.localStream = none := by
  simp [handleLeave, leaveRoom, stopLocalTracks, hl]

theorem stopScreenShare_stopped (s : HookState) (ss : List Track)
    (hs : s.screenShareStream = some ss) :
    (stopScreenShare s).1.stoppedTracks = s.stoppedTracks ++ ss.map Track.tid := by
  cases hls : s.localStream with
  | none => simp [stopScreenShare, hs, hls]
  | some ts =>
      cases hv : ts.find? (fun t => t.kind = TrackKind.video) with
      | none => simp [stopScreenShare, hs, hls, hv]
      | some vt => simp [stopScreenShare, hs, hls, hv]

/-! ### The claims -/

/-- Claim C1 (code divergence, observed behaviour): for an inbound offer
from an unknown peer while local media is active, the handler `onOffer`
creates the connection and attaches both local tracks BEFORE setting the
remote description, and only then creates the answer.  The claim (and the
repository document `BUGFIX_ADDTRACK_ERROR.md`, which presents
set-remote-description → add-tracks → create-answer as the fixed order)
requires the remote description to be set first; the code performs
add-track first.  This theorem evaluates the observable trace at the
failing input. -/
theorem c1_onOffer_attaches_tracks_before_remote_description :
    (onOffer exampleMediaState "bob" ⟨SdpType.offer, 7⟩).2 =
      [Op.createPc "bob", Op.addTrackOk "bob" 0, Op.addTrackOk "bob" 1,
       Op.setRemoteDescOk "bob", Op.createAnswerOk "bob",
       Op.sendAnswer "bob" 0] := by
  decide

/-- Claim C2 counterexample: after `bob` is already known (one session,
`pcId 0`), a duplicate `user-joined` event runs `startCallWith` again:
the trace contains a fresh connection creation and fresh track
attachments, and the registry entry afterwards is a different connection
(`pcId 1`); the old connection is never closed.  This refutes the claim
that a duplicate `user-joined` neither creates a second session nor
attaches local tracks again. -/
theorem c2_counterexample_duplicate_join_creates_new_connection :
    (alistLookup exampleJoinedState.pcs "bob").map PC.pcId = some 0 ∧
    Op.createPc "bob" ∈ (onUserJoined exampleJoinedState "bob").2 ∧
    Op.addTrackOk "bob" 0 ∈ (onUserJoined exampleJoinedState "bob").2 ∧
    (alistLookup (onUserJoined exampleJoinedState "bob").1.pcs "bob").map
      PC.pcId = some 1 ∧
    (onUserJoined exampleJoinedState "bob").1.closedPcs = [] := by
  decide

/-- Claim C2 (amended): processing a further offer for a peer with an
existing session creates no connection and attaches no tracks, and the
session keeps exactly its senders.  A duplicate `user-joined` for an
already-known peer (with local media active) leaves exactly one registry
entry for the peer with exactly one sender per local track — but it does
so by creating a fresh connection (the trace contains a connection
creation) that replaces the previous one. -/
theorem c2_amended_idempotence (s : HookState) (p : PeerId)
    (d : SessionDescription) (ts : List Track) (pc : PC)
    (hpc : alistLookup s.pcs p = some pc)
    (hmem : p ∈ s.connectedPeers)
    (hls : s.localStream = some ts)
    (hnd : (alistKeys s.pcs).Nodup)
    (hts : ts.Nodup) :
    ((onOffer s p d).2.filter Op.isSessionCreating = [] ∧
     (alistLookup (onOffer s p d).1.pcs p).map PC.senders = some pc.senders) ∧
    ((alistKeys (onUserJoined s p).1.pcs).count p = 1 ∧
     (alistLookup (onUserJoined s p).1.pcs p).map PC.senders =
       some (ts.map (fun t => { track := some t })) ∧
     Op.createPc p ∈ (onUserJoined s p).2) := by
  constructor
  · obtain ⟨pc', hstate, hsend, _, hops⟩ := onOffer_existing s p d pc hpc
    refine ⟨hops, ?_⟩
    rw [hstate]
    show (alistLookup (alistSet s.pcs p pc') p).map PC.senders = some pc.senders
    rw [alistLookup_set_self]
    simp [hsend]
  · have hmemk : p ∈ alistKeys s.pcs :=
      (alistLookup_isSome_iff s.pcs p).mp (by simp [hpc])
    refine ⟨?_, ?_, ?_⟩
    · rw [onUserJoined_keys_media s p ts hls, if_pos hmemk]
      exact List.count_eq_one_of_mem hnd hmemk
    · rw [onUserJoined_eq_media s p ts hls, if_pos hmem]
      rw [startCallWith_resolve_some s p ts hls]
      show (alistLookup (alistSet (alistSet s.pcs p _) p _) p).map PC.senders = _
      rw [alistLookup_set_self]
      have hfr : ∀ t ∈ ts,
          ((freshPc s.nextPcId).senders.any (fun q => q.track = some t)) = false :=
        fun t _ => rfl
      have hsf := addLocalTracks_senders_of_fresh p ts (freshPc s.nextPcId) hts hfr
      simp only [Option.map_some']
      show some (addLocalTracks p (freshPc s.nextPcId) ts).1.senders = _
      rw [hsf]
      simp [freshPc]
    · rw [onUserJoined_eq_media s p ts hls, if_pos hmem]
      rw [startCallWith_resolve_some s p ts hls]
      exact List.mem_cons_self _ _

/-- Witness for the amended C2 at the concrete duplicate-join state. -/
theorem c2_amended_idempotence_witness :
    (onOffer exampleJoinedState "bob" ⟨SdpType.offer, 7⟩).2.filter
      Op.isSessionCreating = [] ∧
    Op.createPc "bob" ∈ (onUserJoined exampleJoinedState "bob").2 :=
  ⟨(c2_amended_idempotence exampleJoinedState "bob" ⟨SdpType.offer, 7⟩
      exampleTracks exampleJoinedPc (by decide) (by decide) (by decide)
      (by decide) (by decide)).1.1,
   (c2_amended_idempotence exampleJoinedState "bob" ⟨SdpType.offer, 7⟩
      exampleTracks exampleJoinedPc (by decide) (by decide) (by decide)
      (by decide) (by decide)).2.2.2⟩

/-- Claim C3 counterexample: handling an offer from an unknown peer puts
the peer into the connection registry but never into the membership
list, so membership and registry keys diverge after this event. -/
theorem c3_counterexample_offer_breaks_alignment :
    ¬ MembershipRegistryAligned
        (onOffer initState "bob" ⟨SdpType.offer, 7⟩).1 := by
  intro h
  have hb : "bob" ∈ alistKeys (onOffer initState "bob" ⟨SdpType.offer, 7⟩).1.pcs := by
    decide
  have hmem := (h "bob").mpr hb
  have : "bob" ∉ (onOffer initState "bob" ⟨SdpType.offer, 7⟩).1.connectedPeers := by
    decide
  exact this hmem

/-- Claim C3 (amended): the membership/registry alignment is an invariant
of the membership events (`existing-users`, `user-joined`, `user-left`)
provided local media is active and the registry keys are duplicate-free;
it holds after any such event sequence if it held before.  (It is not an
invariant of the full system: an inbound offer from an unknown peer adds
a registry key without a membership entry, and a join processed without
local media adds membership without a registry entry.) -/
theorem c3_amended_membership_registry_alignment (selfId : PeerId)
    (s : HookState) (evs : List MemEvent)
    (hmedia : s.localStream.isSome = true)
    (hkeys : (alistKeys s.pcs).Nodup)
    (hal : MembershipRegistryAligned s) :
    MembershipRegistryAligned (runMem selfId s evs) :=
  (runMem_alignedInv selfId evs s ⟨hmedia, hkeys, hal⟩).2.2

/-- Witness for the amended C3 on a concrete event sequence. -/
theorem c3_amended_membership_registry_alignment_witness :
    ("carol" ∈ (runMem "alice" exampleMediaState
        [MemEvent.userJoined "bob", MemEvent.existingUsers ["carol", "alice"],
         MemEvent.userLeft "bob"]).connectedPeers ↔
     "carol" ∈ alistKeys (runMem "alice" exampleMediaState
        [MemEvent.userJoined "bob", MemEvent.existingUsers ["carol", "alice"],
         MemEvent.userLeft "bob"]).pcs) :=
  c3_amended_membership_registry_alignment "alice" exampleMediaState
    [MemEvent.userJoined "bob", MemEvent.existingUsers ["carol", "alice"],
     MemEvent.userLeft "bob"]
    (by decide) (by decide)
    (fun q => by simp [exampleMediaState, initState, alistKeys]) "carol"

/-- Claim C4 counterexample: a candidate for `bob` arrives while the
session has no remote description (offer sent, no answer yet).  The code
hands it to `addIceCandidate` immediately (which fails) instead of
enqueueing it — the state is completely unchanged, so nothing was
queued — and after the answer sets the remote description the candidate
has still never been applied: no queue is ever flushed. -/
theorem c4_counterexample_no_pending_candidate_queue :
    (alistLookup exampleCallState.pcs "bob").map PC.remoteDesc = some none ∧
    (onCandidate exampleCallState "bob" 42).1 = exampleCallState ∧
    (alistLookup (onAnswer (onCandidate exampleCallState "bob" 42).1 "bob"
        ⟨SdpType.answer, 9⟩).1.pcs "bob").map PC.remoteDesc =
      some (some ⟨SdpType.answer, 9⟩) ∧
    (alistLookup (onAnswer (onCandidate exampleCallState "bob" 42).1 "bob"
        ⟨SdpType.answer, 9⟩).1.pcs "bob").map PC.appliedCandidates =
      some [] := by
  decide

/-- Claim C4 (amended): an inbound candidate for a peer with no
connection is dropped with a warning; for an existing connection the
candidate is passed to `addIceCandidate` immediately — appended to the
applied candidates (in arrival order) when the remote description is
set, and discarded with a logged error (state unchanged, no queue) when
it is not. -/
theorem c4_amended_candidate_handling (s : HookState) (p : PeerId) (c : Nat) :
    (alistLookup s.pcs p = none →
      onCandidate s p c =
        (s, [Op.warnLogged "no peer connection found for candidate"])) ∧
    (∀ pc, alistLookup s.pcs p = some pc → pc.remoteDesc.isSome = true →
      onCandidate s p c =
        ({ s with pcs := alistSet s.pcs p ({ pc with appliedCandidates := pc.appliedCandidates ++ [c] }) },
         [Op.addCandidateOk p c])) ∧
    (∀ pc, alistLookup s.pcs p = some pc → pc.remoteDesc = none →
      onCandidate s p c =
        (s, [Op.errorLogged
              "InvalidStateError: addIceCandidate before remote description"])) :=
  ⟨fun h => onCandidate_no_session s p c h,
   fun pc h hr => onCandidate_applied s p c pc h hr,
   fun pc h hr => onCandidate_discarded s p c pc h hr⟩

/-- Witness for the amended C4: a candidate for a session whose remote
description is set is applied immediately. -/
theorem c4_amended_candidate_handling_witness :
    (onCandidate exampleOfferedState "bob" 42).2 = [Op.addCandidateOk "bob" 42] := by
  rw [(c4_amended_candidate_handling exampleOfferedState "bob" 42).2.1
        exampleOfferedPc (by decide) (by decide)]

/-- Claim C5: an inbound answer addressed to a session that is not in
the offer-sent (`have-local-offer`) state — including a `Stable` session
and an unknown peer — is discarded and reported: the whole hook state is
unchanged (in particular the session state and remote description), the
trace is a single logged warning or error, and the handler is a total
function (no crash). -/
theorem c5_answer_in_wrong_state_discarded (s : HookState) (p : PeerId)
    (d : SessionDescription) (hd : d.sdpType = .answer)
    (hnot : (alistLookup s.pcs p).map PC.signalingState ≠
      some SigState.haveLocalOffer) :
    (onAnswer s p d).1 = s ∧
    ((onAnswer s p d).2 = [Op.warnLogged "no peer connection found"] ∨
     (onAnswer s p d).2 =
       [Op.errorLogged "InvalidStateError: setRemoteDescription(answer)"]) := by
  cases hl : alistLookup s.pcs p with
  | none => simp [onAnswer, hl]
  | some pc =>
      have hst : pc.signalingState ≠ .haveLocalOffer := by
        intro hc
        exact hnot (by rw [hl, Option.map_some', hc])
      have herr := PC.setRemoteDescription_answer_not_offerSent hd hst
      simp [onAnswer, hl, herr]

/-- Witness for C5: an answer arriving while `bob` is already `Stable`. -/
theorem c5_answer_in_wrong_state_discarded_witness :
    (onAnswer exampleOfferedState "bob" ⟨SdpType.answer, 9⟩).1 =
      exampleOfferedState ∧
    ((onAnswer exampleOfferedState "bob" ⟨SdpType.answer, 9⟩).2 =
       [Op.warnLogged "no peer connection found"] ∨
     (onAnswer exampleOfferedState "bob" ⟨SdpType.answer, 9⟩).2 =
       [Op.errorLogged "InvalidStateError: setRemoteDescription(answer)"]) :=
  c5_answer_in_wrong_state_discarded exampleOfferedState "bob"
    ⟨SdpType.answer, 9⟩ rfl (by decide)

/-- Claim C6: switching the outgoing video track (camera to screen-share
via `startScreenShare`, or back via `stopScreenShare`) acts on every
registered connection as a track replace on the existing video sender
(`replaceVideoTrack`) and never changes the number of senders of any
connection. -/
theorem c6_replace_video_preserves_sender_count (s : HookState) (t : Track)
    (p : PeerId) (pc : PC) (h : alistLookup s.pcs p = some pc) :
    (alistLookup (startScreenShare s t).1.pcs p =
        some (pc.replaceVideoTrack t) ∧
      (pc.replaceVideoTrack t).senders.length = pc.senders.length) ∧
    (∃ pc', alistLookup (stopScreenShare s).1.pcs p = some pc' ∧
      pc'.senders.length = pc.senders.length) :=
  ⟨⟨startScreenShare_lookup s t p pc h,
    PC.replaceVideoTrack_senders_length pc t⟩,
   stopScreenShare_lookup s p pc h⟩

/-- Witness for C6 at the concrete joined state (two senders). -/
theorem c6_replace_video_preserves_sender_count_witness :
    alistLookup (startScreenShare exampleJoinedState ⟨5, TrackKind.video⟩).1.pcs
        "bob" = some (exampleJoinedPc.replaceVideoTrack ⟨5, TrackKind.video⟩) ∧
    (exampleJoinedPc.replaceVideoTrack ⟨5, TrackKind.video⟩).senders.length =
      exampleJoinedPc.senders.length :=
  (c6_replace_video_preserves_sender_count exampleJoinedState
    ⟨5, TrackKind.video⟩ "bob" exampleJoinedPc (by decide)).1

/-- Claim C7: a `user-left` event for a known peer destroys its session:
its connection is closed, the registry entry and the remote-stream entry
are removed, and the peer leaves the membership list; a local leave
(`leaveRoom`) closes that connection too and clears the registry, the
remote streams and the membership list. -/
theorem c7_teardown_on_departure_and_leave (s : HookState) (p : PeerId)
    (pc : PC) (hnd : (alistKeys s.pcs).Nodup)
    (hnds : (alistKeys s.remoteStreams).Nodup)
    (h : alistLookup s.pcs p = some pc) :
    (p ∉ (onUserLeft s p).1.connectedPeers ∧
     alistLookup (onUserLeft s p).1.pcs p = none ∧
     alistLookup (onUserLeft s p).1.remoteStreams p = none ∧
     pc.pcId ∈ (onUserLeft s p).1.closedPcs) ∧
    ((leaveRoom s).1.pcs = [] ∧ (leaveRoom s).1.remoteStreams = [] ∧
     (leaveRoom s).1.connectedPeers = [] ∧
     pc.pcId ∈ (leaveRoom s).1.closedPcs) := by
  obtain ⟨hpeers, hpcs, hrs, _⟩ := onUserLeft_state s p
  refine ⟨⟨?_, ?_, ?_, ?_⟩, ?_, ?_, ?_, ?_⟩
  · rw [hpeers]
    simp
  · rw [hpcs]
    exact alistLookup_erase_self hnd p
  · rw [hrs]
    exact alistLookup_erase_self hnds p
  · rw [onUserLeft_closed s p pc h]
    simp
  · exact (leaveRoom_state s).1
  · exact (leaveRoom_state s).2.1
  · exact (leaveRoom_state s).2.2.1
  · rw [(leaveRoom_state s).2.2.2]
    have : (p, pc) ∈ s.pcs := alistLookup_some_mem h
    have : pc.pcId ∈ s.pcs.map (fun e => e.2.pcId) :=
      List.mem_map_of_mem (fun e => e.2.pcId) this
    simp [this]

/-- Witness for C7 at the concrete joined state. -/
theorem c7_teardown_on_departure_and_leave_witness :
    ("bob" ∉ (onUserLeft exampleJoinedState "bob").1.connectedPeers ∧
     alistLookup (onUserLeft exampleJoinedState "bob").1.pcs "bob" = none ∧
     alistLookup (onUserLeft exampleJoinedState "bob").1.remoteStreams "bob" =
       none ∧
     exampleJoinedPc.pcId ∈ (onUserLeft exampleJoinedState "bob").1.closedPcs) ∧
    ((leaveRoom exampleJoinedState).1.pcs = [] ∧
     (leaveRoom exampleJoinedState).1.remoteStreams = [] ∧
     (leaveRoom exampleJoinedState).1.connectedPeers = [] ∧
     exampleJoinedPc.pcId ∈ (leaveRoom exampleJoinedState).1.closedPcs) :=
  c7_teardown_on_departure_and_leave exampleJoinedState "bob"
    exampleJoinedPc (by decide) (by decide) (by decide)

/-- Claim C8 counterexample: with local media (track ids 0, 1) and an
active screen share (track id 5), the explicit leave path
(`stopLocalTracks` then `leaveRoom`, as wired in the UI) stops only the
local-stream tracks: the screen-share track is not stopped and the
screen-share stream is not even cleared.  This refutes the claim that
the release operation stops all tracks of both streams on every exit
path including an explicit leave. -/
theorem c8_counterexample_leave_does_not_stop_screen_share :
    (handleLeave exampleShareState).1.stoppedTracks = [0, 1] ∧
    (5 : Nat) ∉ (handleLeave exampleShareState).1.stoppedTracks ∧
    (handleLeave exampleShareState).1.screenShareStream =
      some [⟨5, TrackKind.video⟩] := by
  decide

/-- Claim C8 (amended): the explicit leave path stops every track of the
local camera/microphone stream and clears the local stream reference,
but it does not touch the screen-share stream; the screen-share tracks
are stopped only by `stopScreenShare` (or by the end-of-sharing handler
of the track itself). -/
theorem c8_amended_release_scope (s : HookState) (ts ss : List Track)
    (hl : s.localStream = some ts) (hs : s.screenShareStream = some ss) :
    ((handleLeave s).1.localStream = none ∧
     (∀ t ∈ ts, t.tid ∈ (handleLeave s).1.stoppedTracks) ∧
     (handleLeave s).1.screenShareStream = s.screenShareStream) ∧
    (∀ t ∈ ss, t.tid ∈ (stopScreenShare s).1.stoppedTracks) := by
  obtain ⟨hstop, hnone⟩ := handleLeave_stopped s ts hl
  refine ⟨⟨hnone, ?_, by simp [handleLeave, leaveRoom, stopLocalTracks, hl]⟩, ?_⟩
  · intro t ht
    rw [hstop]
    exact List.mem_append_right _ (List.mem_map_of_mem Track.tid ht)
  · intro t ht
    rw [stopScreenShare_stopped s ss hs]
    exact List.mem_append_right _ (List.mem_map_of_mem Track.tid ht)

/-- Witness for the amended C8 at the concrete screen-sharing state. -/
theorem c8_amended_release_scope_witness :
    (handleLeave exampleShareState).1.localStream = none ∧
    (0 : Nat) ∈ (handleLeave exampleShareState).1.stoppedTracks ∧
    (5 : Nat) ∈ (stopScreenShare exampleShareState).1.stoppedTracks :=
  ⟨(c8_amended_release_scope exampleShareState exampleTracks
      [⟨5, TrackKind.video⟩] (by decide) (by decide)).1.1,
   (c8_amended_release_scope exampleShareState exampleTracks
      [⟨5, TrackKind.video⟩] (by decide) (by decide)).1.2.1
     ⟨0, TrackKind.audio⟩ (by decide),
   (c8_amended_release_scope exampleShareState exampleTracks
      [⟨5, TrackKind.video⟩] (by decide) (by decide)).2
     ⟨5, TrackKind.video⟩ (by decide)⟩

/-- Claim C9: with local media started, a single `user-joined` event for
an unknown peer produces exactly one registry entry for that peer, whose
session is in the offer-sent (`have-local-offer`) state, and the trace
contains exactly one outbound offer message, addressed to that peer. -/
theorem c9_single_join_single_offer (s : HookState) (p : PeerId)
    (ts : List Track) (hls : s.localStream = some ts)
    (hmem : p ∉ s.connectedPeers) (hreg : p ∉ alistKeys s.pcs) :
    (alistKeys (onUserJoined s p).1.pcs).count p = 1 ∧
    (alistLookup (onUserJoined s p).1.pcs p).map PC.signalingState =
      some SigState.haveLocalOffer ∧
    (onUserJoined s p).2.filter Op.isSendOffer = [Op.sendOffer p s.nextPcId] := by
  refine ⟨?_, ?_, ?_⟩
  · rw [onUserJoined_keys_media s p ts hls, if_neg hreg]
    rw [List.count_append]
    rw [List.count_eq_zero.mpr hreg]
    simp
  · rw [onUserJoined_eq_media s p ts hls, if_neg hmem]
    obtain ⟨pcF, hlk, hst, _, _⟩ :=
      startCallWith_lookup { s with connectedPeers := s.connectedPeers ++ [p] } p
    rw [hlk, Option.map_some', hst]
  · rw [onUserJoined_eq_media s p ts hls, if_neg hmem]
    exact startCallWith_ops_sendOffer
      { s with connectedPeers := s.connectedPeers ++ [p] } p

/-- Witness for C9: `bob` joins while `alice` has media. -/
theorem c9_single_join_single_offer_witness :
    (alistKeys (onUserJoined exampleMediaState "bob").1.pcs).count "bob" = 1 ∧
    (alistLookup (onUserJoined exampleMediaState "bob").1.pcs "bob").map
      PC.signalingState = some SigState.haveLocalOffer ∧
    (onUserJoined exampleMediaState "bob").2.filter Op.isSendOffer =
      [Op.sendOffer "bob" 0] :=
  c9_single_join_single_offer exampleMediaState "bob" exampleTracks
    (by decide) (by decide) (by decide)

/-- Claim C10: the membership list never contains duplicate peer ids:
every sequence of `existing-users`, `user-joined` and `user-left` events
preserves `Nodup` of `connectedPeers` (additions are guarded by a
membership check; removal filters all occurrences). -/
theorem c10_connected_peers_nodup (selfId : PeerId) (s : HookState)
    (evs : List MemEvent) (h : s.connectedPeers.Nodup) :
    ((runMem selfId s evs).connectedPeers).Nodup :=
  runMem_nodup selfId evs s h

/-- Witness for C10 on a concrete event sequence with a duplicate join. -/
theorem c10_connected_peers_nodup_witness :
    ((runMem "alice" exampleMediaState
        [MemEvent.userJoined "bob", MemEvent.userJoined "bob",
         MemEvent.existingUsers ["carol", "alice", "bob"],
         MemEvent.userLeft "bob"]).connectedPeers).Nodup :=
  c10_connected_peers_nodup "alice" exampleMediaState
    [MemEvent.userJoined "bob", MemEvent.userJoined "bob",
     MemEvent.existingUsers ["carol", "alice", "bob"],
     MemEvent.userLeft "bob"] (by decide)

end WebRTC
